import Mathlib

/-!
Verification development for the keyboard-maestro-mcp core (src/index.ts).

The TypeScript source is shallowly embedded: pure string manipulation is
translated to executable Lean functions on `String`/`List Char`; platform
primitives that the source calls (fetch, JSON.parse, fs access/readFile,
crypto.randomUUID, os.homedir, timers) are modelled as explicit oracle
arguments, so every function of the embedding is total and its outcome is a
plain value, mirroring the source's convention of never raising past its own
boundary.
-/

namespace KMMCP

/-! ## Small utilities shared by the embedding -/

/-- Concatenation of a list of lists (used instead of flatMap for
proof-friendliness). -/
def concatAll {α : Type} (ls : List (List α)) : List α :=
  ls.foldr (fun l acc => l ++ acc) []

/-- UTF-8 encoding of a single character, as byte values. -/
def utf8Char (c : Char) : List Nat :=
  let n := c.toNat
  if n < 0x80 then [n]
  else if n < 0x800 then [0xC0 + n / 0x40, 0x80 + n % 0x40]
  else if n < 0x10000 then
    [0xE0 + n / 0x1000, 0x80 + n / 0x40 % 0x40, 0x80 + n % 0x40]
  else
    [0xF0 + n / 0x40000, 0x80 + n / 0x1000 % 0x40, 0x80 + n / 0x40 % 0x40,
      0x80 + n % 0x40]

/-- UTF-8 encoding of a string, as byte values (models Buffer.from(s)). -/
def utf8Bytes (s : String) : List Nat :=
  concatAll (s.toList.map utf8Char)

/-- The base64 alphabet used by Buffer.toString("base64"). -/
def b64Chars : List Char :=
  "ABCDEFGHIJKLMNOPQRSTUVWXYZabcdefghijklmnopqrstuvwxyz0123456789+/".toList

/-- Character of the base64 alphabet at a 6-bit index. -/
def b64Char (n : Nat) : Char := b64Chars.getD n 'A'

/-- Standard base64 encoding of a byte list, with padding, three input bytes
per four output characters (models Buffer.toString("base64")). -/
def base64Chunks : List Nat → List Char
  | [] => []
  | [a] => [b64Char (a / 4), b64Char (a % 4 * 16), '=', '=']
  | [a, b] => [b64Char (a / 4), b64Char (a % 4 * 16 + b / 16), b64Char (b % 16 * 4), '=']
  | a :: b :: c :: rest =>
    b64Char (a / 4) :: b64Char (a % 4 * 16 + b / 16) ::
      b64Char (b % 16 * 4 + c / 64) :: b64Char (c % 64) :: base64Chunks rest

/-- Base64 encoding of a byte list as a string. -/
def base64Encode (bs : List Nat) : String := String.mk (base64Chunks bs)

/-- Characters kept verbatim by URLSearchParams serialization
(application/x-www-form-urlencoded): ASCII alphanumerics and * - . _ -/
def formUnreserved (c : Char) : Bool :=
  (('A' ≤ c && c ≤ 'Z') || ('a' ≤ c && c ≤ 'z') || ('0' ≤ c && c ≤ '9')
    || c == '*' || c == '-' || c == '.' || c == '_')

/-- Upper-case hexadecimal digit for a value below 16. -/
def hexDigitUpper (n : Nat) : Char := "0123456789ABCDEF".toList.getD n '0'

/-- Percent-encoding of one byte. -/
def percentByte (n : Nat) : List Char := ['%', hexDigitUpper (n / 16), hexDigitUpper (n % 16)]

/-- URLSearchParams encoding of one character: unreserved characters kept,
space becomes +, everything else percent-encodes its UTF-8 bytes. -/
def formEncodeChar (c : Char) : List Char :=
  if formUnreserved c then [c]
  else if c == ' ' then ['+']
  else concatAll ((utf8Char c).map percentByte)

/-- URLSearchParams encoding of a string. -/
def formEncode (s : String) : String :=
  String.mk (concatAll (s.toList.map formEncodeChar))

/-- Path concatenation standing in for node path.join; the source only joins a
directory with a fresh file name, so separator insertion is the whole
behavior of interest (path.join normalization of duplicate separators is not
modelled; no claim depends on it). -/
def joinPath (dir file : String) : String := dir ++ "/" ++ file

/-- Whitespace set of JS String.trim, restricted to its common members (space,
tab, LF, CR, VT, FF, NBSP, BOM); exotic Unicode space separators are omitted,
no claim depends on them. -/
def jsWhitespace (c : Char) : Bool :=
  c == ' ' || c == '\t' || c == '\n' || c == '\r' || c == Char.ofNat 11 ||
    c == Char.ofNat 12 || c == Char.ofNat 160 || c == Char.ofNat 0xFEFF

/-- JS String.trim: strip leading and trailing whitespace. -/
def jsTrim (s : String) : String :=
  String.mk (((s.toList.dropWhile jsWhitespace).reverse.dropWhile jsWhitespace).reverse)

/-! ## JSON values

JSON.parse is a platform primitive, not repository code; its result is
modelled as an explicit `Json` value (numbers as integers — machine-list
configuration only uses integral ports; a throwing parse is modelled as
`none` at the call site). -/

inductive Json where
  | null : Json
  | bool : Bool → Json
  | num : Int → Json
  | str : String → Json
  | arr : List Json → Json
  | obj : List (String × Json) → Json

/-- Whether a JSON value is an array (Array.isArray check, line 59). -/
def Json.isArr : Json → Bool
  | .arr _ => true
  | _ => false

/-- Field lookup on a parsed JSON object (JSON.parse yields objects with
distinct keys, so first-match lookup is adequate); any other value has no
fields, modelling JS undefined property access. -/
def Json.getField : Json → String → Option Json
  | .obj fields, k => (fields.find? (fun f => f.1 == k)).map (fun f => f.2)
  | _, _ => none

/-! ## Machine configuration (MachineConfig interface, lines 19-28) -/

structure MachineConfig where
  name : String
  host : String
  port : Int
  username : String
  password : String
  secure : Bool
  outputDir : Option String
  saveClipboardMacroUid : Option String
  deriving DecidableEq

/-- One element of the parsed KM_MACHINES array turned into a record
(index.ts lines 63-72). JS truthiness drives the defaults: a missing or empty
name becomes "unnamed", a missing or zero port becomes 4490, a nullish secure
becomes false. Fields of a type the TypeScript interface does not declare
(e.g. a string port) would flow through untyped in JS; they are modelled by
the default branches here, and every claim quantifies only over well-formed
objects where this cannot be observed. -/
def machineOfJson (j : Json) : MachineConfig where
  name :=
    match j.getField "name" with
    | some (.str s) => if s = "" then "unnamed" else s
    | _ => "unnamed"
  host :=
    match j.getField "host" with
    | some (.str s) => s
    | _ => ""
  port :=
    match j.getField "port" with
    | some (.num n) => if n = 0 then 4490 else n
    | _ => 4490
  username :=
    match j.getField "username" with
    | some (.str s) => s
    | _ => ""
  password :=
    match j.getField "password" with
    | some (.str s) => s
    | _ => ""
  secure :=
    match j.getField "secure" with
    | some (.bool b) => b
    | _ => false
  outputDir :=
    match j.getField "outputDir" with
    | some (.str s) => some s
    | _ => none
  saveClipboardMacroUid :=
    match j.getField "saveClipboardMacroUid" with
    | some (.str s) => some s
    | _ => none

/-- Legacy single-machine environment variables (KM_HOST and friends). -/
structure LegacyEnv where
  host : Option String
  port : Option String
  username : Option String
  password : Option String
  secure : Option String
  deriving DecidableEq

/-- Value of a decimal digit list. -/
def digitsVal (ds : List Char) : Nat :=
  ds.foldl (fun a c => a * 10 + (c.toNat - '0'.toNat)) 0

/-- Decimal integer prefix parse standing in for JS parseInt(s, 10); an input
with no leading digits (NaN in JS) is modelled as 0. No claim exercises this
legacy branch. -/
def jsParseInt (s : String) : Int :=
  let t := s.toList.dropWhile jsWhitespace
  match t with
  | '-' :: rest => -(Int.ofNat (digitsVal (rest.takeWhile Char.isDigit)))
  | '+' :: rest => Int.ofNat (digitsVal (rest.takeWhile Char.isDigit))
  | _ => Int.ofNat (digitsVal (t.takeWhile Char.isDigit))

/-- getMachines (index.ts lines 31-77). `kmMachines` models the KM_MACHINES
environment variable combined with JSON.parse: `none` when the variable is
unset or empty (falsy), `some none` when JSON.parse throws (the catch block),
`some (some j)` when it parses to `j`. The legacy flat-field branch is kept
for faithfulness; no claim depends on it. -/
def getMachines (kmMachines : Option (Option Json)) (legacy : LegacyEnv) :
    List MachineConfig :=
  match kmMachines with
  | none =>
    match legacy.host, legacy.username, legacy.password with
    | some h, some u, some p =>
      if h ≠ "" ∧ u ≠ "" ∧ p ≠ "" then
        [{ name := "default"
           host := h
           port :=
             match legacy.port with
             | some ps => if ps = "" then 4490 else jsParseInt ps
             | none => 4490
           username := u
           password := p
           secure := legacy.secure = some "true"
           outputDir := none
           saveClipboardMacroUid := none }]
      else []
    | _, _, _ => []
  | some none => []
  | some (some j) =>
    match j with
    | .arr ms => ms.map machineOfJson
    | _ => []

/-- getBaseUrl (index.ts lines 80-84). -/
def getBaseUrl (m : MachineConfig) : String :=
  let protocol := if m.secure then "https" else "http"
  let port := if m.secure then m.port + 1 else m.port
  protocol ++ "://" ++ m.host ++ ":" ++ toString port

/-- getAuthHeader (index.ts lines 87-92). -/
def getAuthHeader (m : MachineConfig) : String :=
  "Basic " ++ base64Encode (utf8Bytes (m.username ++ ":" ++ m.password))

/-- findMachine (index.ts lines 95-103): absent (or empty, falsy) name yields
the first machine; otherwise case-insensitive exact name match. -/
def findMachine (machines : List MachineConfig) (name : Option String) :
    Option MachineConfig :=
  match name with
  | none => machines.head?
  | some n =>
    if n = "" then machines.head?
    else machines.find? (fun m => m.name.toLower == n.toLower)

/-! ## HTML entity decoding (decodeHtmlEntities, lines 106-115) -/

/-- String.fromCodePoint for one code point. Unicode scalar values become the
corresponding character; a lone surrogate (which JS would keep as an unpaired
UTF-16 unit) or an out-of-range value (on which JS fromCodePoint throws
RangeError) is modelled as NUL — no claim touches such inputs. -/
def jsFromCodePoint (n : Nat) : Char := Char.ofNat n

def isHexDigit (c : Char) : Bool :=
  ('0' ≤ c && c ≤ '9') || ('a' ≤ c && c ≤ 'f') || ('A' ≤ c && c ≤ 'F')

def hexVal (c : Char) : Nat :=
  if '0' ≤ c && c ≤ '9' then c.toNat - '0'.toNat
  else if 'a' ≤ c && c ≤ 'f' then c.toNat - 'a'.toNat + 10
  else if 'A' ≤ c && c ≤ 'F' then c.toNat - 'A'.toNat + 10
  else 0

def hexDigitsVal (ds : List Char) : Nat :=
  ds.foldl (fun a c => a * 16 + hexVal c) 0

/-- One global-replace pass of the regex `&#(\d+);`: leftmost non-overlapping
matches, greedy digit run, scanning resumes after each match. Fuel bounds the
scanning steps; it is instantiated with the input length, which suffices
since every step consumes at least one input character. -/
def replaceDecEntF : Nat → List Char → List Char
  | 0, cs => cs
  | _ + 1, [] => []
  | fuel + 1, '&' :: '#' :: rest =>
    (match rest.takeWhile Char.isDigit, rest.dropWhile Char.isDigit with
     | ds@(_ :: _), ';' :: rest3 =>
       jsFromCodePoint (digitsVal ds) :: replaceDecEntF fuel rest3
     | _, _ => '&' :: replaceDecEntF fuel ('#' :: rest))
  | fuel + 1, c :: rest => c :: replaceDecEntF fuel rest

/-- One global-replace pass of the regex `&#x([0-9a-fA-F]+);` (the x is
lowercase only, as in the source). -/
def replaceHexEntF : Nat → List Char → List Char
  | 0, cs => cs
  | _ + 1, [] => []
  | fuel + 1, '&' :: '#' :: 'x' :: rest =>
    (match rest.takeWhile isHexDigit, rest.dropWhile isHexDigit with
     | ds@(_ :: _), ';' :: rest3 =>
       jsFromCodePoint (hexDigitsVal ds) :: replaceHexEntF fuel rest3
     | _, _ => '&' :: replaceHexEntF fuel ('#' :: 'x' :: rest))
  | fuel + 1, c :: rest => c :: replaceHexEntF fuel rest

/-- One global-replace pass of a literal pattern (the five named entities):
leftmost non-overlapping occurrences each replaced, scanning resumes after
the replaced occurrence. -/
def replaceLitF (pat rep : List Char) : Nat → List Char → List Char
  | 0, cs => cs
  | _ + 1, [] => []
  | fuel + 1, c :: rest =>
    if pat.isPrefixOf (c :: rest) then
      rep ++ replaceLitF pat rep fuel ((c :: rest).drop pat.length)
    else c :: replaceLitF pat rep fuel rest

def replaceLit (pat rep : String) (s : List Char) : List Char :=
  replaceLitF pat.toList rep.toList s.length s

/-- decodeHtmlEntities: the seven replace passes applied in source order
(numeric decimal, numeric hexadecimal, then &amp; &lt; &gt; &quot; &apos;),
each pass running on the previous pass's output. -/
def decodeHtmlEntities (text : String) : String :=
  let s1 := replaceDecEntF text.toList.length text.toList
  let s2 := replaceHexEntF s1.length s1
  let s3 := replaceLit "&amp;" "&" s2
  let s4 := replaceLit "&lt;" "<" s3
  let s5 := replaceLit "&gt;" ">" s4
  let s6 := replaceLit "&quot;" "\"" s5
  let s7 := replaceLit "&apos;" "\x27" s6
  String.mk s7

/-! ## The catalog HTML scanners (listMacros, lines 146-183)

The source parses the fetched page with three JS regexes. They are embedded
as specialized backtracking scanners with the same matching semantics:
literals match case-insensitively (the i flag), `[^>]*` and `[^"]*` are
greedy with longest-first backtracking (and are forced when followed by the
very character the class excludes), the lazy `[\s\S]*?` takes the shortest
extension (first occurrence of what follows), and global scanning resumes
after the end of each match (exec with the g flag, always advancing). -/

def lowerEq (a b : Char) : Bool := a.toLower == b.toLower

/-- Case-insensitive literal match at the head of cs: returns the actually
matched characters and the rest. -/
def matchLitCI : List Char → List Char → Option (List Char × List Char)
  | [], cs => some ([], cs)
  | _ :: _, [] => none
  | p :: ps, c :: cs =>
    if lowerEq p c then (matchLitCI ps cs).map (fun pr => (c :: pr.1, pr.2)) else none

/-- All decompositions cs = a ++ m ++ r where a consists of characters
satisfying ok and m matches lit case-insensitively, in ascending length of a:
the candidate positions an engine tries for `class* lit`. -/
def splitsAsc (lit : List Char) (ok : Char → Bool) :
    List Char → List (List Char × List Char × List Char)
  | [] =>
    (match matchLitCI lit [] with
     | some pr => [(([] : List Char), pr.1, pr.2)]
     | none => [])
  | c :: rest =>
    (match matchLitCI lit (c :: rest) with
     | some pr => [(([] : List Char), pr.1, pr.2)]
     | none => []) ++
      (if ok c then (splitsAsc lit ok rest).map (fun t => (c :: t.1, t.2.1, t.2.2))
       else [])

/-- Greedy order: longest class run first. -/
def splitsDesc (lit : List Char) (ok : Char → Bool) (cs : List Char) :
    List (List Char × List Char × List Char) :=
  (splitsAsc lit ok cs).reverse

/-- First f-success along a list of backtracking candidates. -/
def firstSome {α β : Type} (f : α → Option β) : List α → Option β
  | [] => none
  | a :: rest =>
    match f a with
    | some b => some b
    | none => firstSome f rest

/-- First case-insensitive occurrence of lit in cs: cs = skipped ++ matched
++ rest; models the lazy `[\s\S]*?lit`. -/
def findCI (lit : List Char) : List Char → Option (List Char × List Char × List Char)
  | [] => (matchLitCI lit []).map (fun pr => (([] : List Char), pr.1, pr.2))
  | c :: rest =>
    match matchLitCI lit (c :: rest) with
    | some pr => some ([], pr.1, pr.2)
    | none => (findCI lit rest).map (fun t => (c :: t.1, t.2.1, t.2.2))

def notGt (c : Char) : Bool := c != '>'

def notQuote (c : Char) : Bool := c != '"'

def optionLit : List Char := "<option".toList

def labelLit : List Char := "label=\"".toList

def valueLit : List Char := "value=\"".toList

def optgroupLit : List Char := "<optgroup".toList

def closeOptgroupLit : List Char := "</optgroup>".toList

def formLit : List Char := "<form".toList

def actionLit : List Char := "action=\"authenticatedaction.html\"".toList

def closeFormLit : List Char := "</form>".toList

/-- Continuation of the option regex after `label="` has been matched:
`([^"]*)"[^>]*value="([^"]*)"[^>]*>`. Returns (label capture, value capture,
rest after the closing >). -/
def matchOptionTail (cs2 : List Char) : Option (List Char × List Char × List Char) :=
  let lab := cs2.takeWhile notQuote
  match cs2.dropWhile notQuote with
  | [] => none
  | _ :: cs4 =>
    firstSome
      (fun t =>
        let v := t.2.2.takeWhile notQuote
        match t.2.2.dropWhile notQuote with
        | [] => none
        | _ :: cs7 =>
          match cs7.dropWhile notGt with
          | [] => none
          | _ :: cs9 => some (lab, v, cs9))
      (splitsDesc valueLit notGt cs4)

/-- Match of the option regex anchored at the head of cs:
`<option[^>]*label="([^"]*)"[^>]*value="([^"]*)"[^>]*>` with the i flag. -/
def matchOptionAt (cs : List Char) : Option (List Char × List Char × List Char) :=
  match matchLitCI optionLit cs with
  | none => none
  | some pr => firstSome (fun t => matchOptionTail t.2.2) (splitsDesc labelLit notGt pr.2)

/-- optionRegex.exec driven to exhaustion (g flag): leftmost match, then
resume after its end. Fuel is instantiated with the input length; every step
consumes at least one character. -/
def scanOptionsF : Nat → List Char → List (List Char × List Char)
  | 0, _ => []
  | _ + 1, [] => []
  | fuel + 1, c :: rest =>
    match matchOptionAt (c :: rest) with
    | some t => (t.1, t.2.1) :: scanOptionsF fuel t.2.2
    | none => scanOptionsF fuel rest

def scanOptions (cs : List Char) : List (List Char × List Char) :=
  scanOptionsF cs.length cs

/-- Continuation of the optgroup regex after `label="` has been matched:
`([^"]*)"[^>]*>([\s\S]*?)<\/optgroup>`. Returns (label capture, content
capture, rest after the closing tag). -/
def matchOptgroupTail (cs2 : List Char) : Option (List Char × List Char × List Char) :=
  let lab := cs2.takeWhile notQuote
  match cs2.dropWhile notQuote with
  | [] => none
  | _ :: cs4 =>
    match cs4.dropWhile notGt with
    | [] => none
    | _ :: cs6 => (findCI closeOptgroupLit cs6).map (fun t => (lab, t.1, t.2.2))

/-- Match of the optgroup regex anchored at the head of cs:
`<optgroup[^>]*label="([^"]*)"[^>]*>([\s\S]*?)<\/optgroup>` with the i flag. -/
def matchOptgroupAt (cs : List Char) : Option (List Char × List Char × List Char) :=
  match matchLitCI optgroupLit cs with
  | none => none
  | some pr => firstSome (fun t => matchOptgroupTail t.2.2) (splitsDesc labelLit notGt pr.2)

/-- optgroupRegex.exec driven to exhaustion (g flag). -/
def scanOptgroupsF : Nat → List Char → List (List Char × List Char)
  | 0, _ => []
  | _ + 1, [] => []
  | fuel + 1, c :: rest =>
    match matchOptgroupAt (c :: rest) with
    | some t => (t.1, t.2.1) :: scanOptgroupsF fuel t.2.2
    | none => scanOptgroupsF fuel rest

def scanOptgroups (cs : List Char) : List (List Char × List Char) :=
  scanOptgroupsF cs.length cs

/-- Match of the form regex anchored at the head of cs:
`<form[^>]*action="authenticatedaction\.html"[^>]*>[\s\S]*?<\/form>` with the
i flag; returns the whole matched substring (match[0]). -/
def matchFormAt (cs : List Char) : Option (List Char) :=
  match matchLitCI formLit cs with
  | none => none
  | some pr =>
    firstSome
      (fun t =>
        match t.2.2.dropWhile notGt with
        | [] => none
        | _ :: cs6 =>
          (findCI closeFormLit cs6).map (fun f => cs.take (cs.length - f.2.2.length)))
      (splitsDesc actionLit notGt pr.2)

/-- html.match(...) without the g flag: leftmost match only. -/
def findForm : List Char → Option (List Char)
  | [] => none
  | c :: rest =>
    match matchFormAt (c :: rest) with
    | some m => some m
    | none => findForm rest

/-- Lines 156-157: parse inside the Protected Macros form when one is
present, else the whole document. -/
def sectionToParse (html : List Char) : List Char := (findForm html).getD html

structure MacroEntry where
  name : String
  uid : String
  group : String
  deriving DecidableEq

/-- The parsing part of listMacros (lines 153-178): scan optgroups, scan
options inside each group's content, entity-decode the trimmed labels, keep
entries whose name and uid are JS-truthy (non-empty). -/
def listMacrosEntries (html : String) : List MacroEntry :=
  let region := sectionToParse html.toList
  concatAll ((scanOptgroups region).map (fun g =>
    let groupName := decodeHtmlEntities (jsTrim (String.mk g.1))
    (scanOptions g.2).filterMap (fun o =>
      let name := decodeHtmlEntities (jsTrim (String.mk o.1))
      let uid := String.mk o.2
      if name = "" then none
      else if uid = "" then none
      else some { name := name, uid := uid, group := groupName })))

/-! ## Transport model

The fetch platform primitive is modelled as an oracle mapping the issued
request to either a transport-level failure (the thrown error's message) or a
status code with the response body text. Functions additionally return the
list of requests they issued, making "no network call" provable. -/

structure Request where
  url : String
  authorization : String
  deriving DecidableEq

inductive HttpResult where
  | failed : String → HttpResult
  | resp : Nat → String → HttpResult
  deriving DecidableEq

/-- response.ok: status in the 2xx range (fetch: 200-299). -/
def statusOk (s : Nat) : Bool := 200 ≤ s && s < 300

/-! ## Trigger Invoker (triggerMacro, index.ts lines 195-248) -/

structure TriggerOutcome where
  success : Bool
  message : String
  result : Option String := none
  deriving DecidableEq

/-- Message for HTTP 401 (same text in triggerMacro and listMacros). -/
def authFailedMsg (m : MachineConfig) : String :=
  "Authentication failed for " ++ m.name ++ ". Check username/password."

/-- Message for HTTP 403 in triggerMacro. -/
def accessDeniedMsg (m : MachineConfig) : String :=
  "Access denied for " ++ m.name ++ ". The macro may not exist or may not be enabled."

/-- Message for any other non-2xx status in triggerMacro. -/
def triggerHttpFailMsg (m : MachineConfig) (s : Nat) : String :=
  "Failed to trigger macro on " ++ m.name ++ ": HTTP " ++ toString s

/-- Message for a transport-level failure (same text in triggerMacro and
listMacros); note it names the machine, its host and its configured port. -/
def connectFailMsg (m : MachineConfig) (e : String) : String :=
  "Failed to connect to " ++ m.name ++ " (" ++ m.host ++ ":" ++ toString m.port ++ "): " ++ e

/-- Message for a successful trigger. -/
def triggerSuccessMsg (mac : String) (m : MachineConfig) : String :=
  "Macro \"" ++ mac ++ "\" triggered successfully on " ++ m.name

/-- Query string built by URLSearchParams({macro}) plus the optional (and
JS-truthy) value parameter (lines 202-205). -/
def triggerParams (mac : String) (value : Option String) : String :=
  "macro=" ++ formEncode mac ++
    (match value with
     | some v => if v = "" then "" else "&value=" ++ formEncode v
     | none => "")

/-- The trigger URL (line 207): always https on port+1, regardless of the
machine's secure flag. -/
def triggerUrl (m : MachineConfig) (mac : String) (value : Option String) : String :=
  "https://" ++ m.host ++ ":" ++ toString (m.port + 1) ++
    "/authenticatedaction.html?" ++ triggerParams mac value

/-- The full request triggerMacro issues (lines 207-215). -/
def triggerRequest (m : MachineConfig) (mac : String) (value : Option String) :
    Request :=
  { url := triggerUrl m mac value, authorization := getAuthHeader m }

/-- Outcome classification of triggerMacro (lines 217-247): 2xx success with
the body as optional result (empty body is JS-falsy, hence absent), 401
authentication failure, 403 access denied, other statuses generic, transport
failure connectivity message. -/
def triggerOutcome (m : MachineConfig) (mac : String) (r : HttpResult) :
    TriggerOutcome :=
  match r with
  | .resp s body =>
    if statusOk s then
      { success := true
        message := triggerSuccessMsg mac m
        result := if body = "" then none else some body }
    else if s = 401 then { success := false, message := authFailedMsg m }
    else if s = 403 then { success := false, message := accessDeniedMsg m }
    else { success := false, message := triggerHttpFailMsg m s }
  | .failed e => { success := false, message := connectFailMsg m e }

/-- triggerMacro: issues its one request against the net oracle and
classifies the result; also reports the request trace. -/
def triggerMacro (m : MachineConfig) (mac : String) (value : Option String)
    (net : Request → HttpResult) : TriggerOutcome × List Request :=
  let req := triggerRequest m mac value
  (triggerOutcome m mac (net req), [req])

/-! ## Macro Catalog Reader outcome (listMacros, lines 118-192) -/

structure ListMacrosResult where
  success : Bool
  macros : Option (List MacroEntry) := none
  message : Option String := none
  deriving DecidableEq

/-- The catalog URL (lines 122-123): always https on port+1, regardless of
the machine's secure flag. -/
def listMacrosUrl (m : MachineConfig) : String :=
  "https://" ++ m.host ++ ":" ++ toString (m.port + 1) ++ "/authenticated.html"

/-- The full request listMacros issues (lines 126-131). -/
def listMacrosRequest (m : MachineConfig) : Request :=
  { url := listMacrosUrl m, authorization := getAuthHeader m }

/-- Message for a non-2xx, non-401 status in listMacros. -/
def listMacrosHttpFailMsg (m : MachineConfig) (s : Nat) : String :=
  "Failed to fetch macros from " ++ m.name ++ ": HTTP " ++ toString s

/-- listMacros (lines 118-192): fetch the catalog page, classify failures,
parse the body on success. -/
def listMacros (m : MachineConfig) (net : Request → HttpResult) : ListMacrosResult :=
  match net (listMacrosRequest m) with
  | .resp s body =>
    if !statusOk s then
      if s = 401 then { success := false, message := some (authFailedMsg m) }
      else { success := false, message := some (listMacrosHttpFailMsg m s) }
    else { success := true, macros := some (listMacrosEntries body) }
  | .failed e => { success := false, message := some (connectFailMsg m e) }

/-! ## Fan-out Coordinator (trigger_macro_on_all handler, lines 576-608) -/

/-- The per-machine outcomes: Promise.all over machines.map preserves the
registry order, and each machine's outcome depends only on its own call. -/
def triggerOnAllResults (machines : List MachineConfig) (mac : String)
    (value : Option String) (net : MachineConfig → Request → HttpResult) :
    List TriggerOutcome :=
  machines.map (fun m => (triggerMacro m mac value (net m)).1)

/-- Array.join("\n"). -/
def joinLines : List String → String
  | [] => ""
  | [s] => s
  | s :: rest => s ++ "\n" ++ joinLines rest

structure ToolReply where
  text : String
  isError : Bool
  deriving DecidableEq

/-- The trigger_macro_on_all tool handler: empty-registry guard, per-machine
summary lines in registry order, and isError as the negated conjunction of
the individual successes. -/
def triggerOnAllHandler (machines : List MachineConfig) (mac : String)
    (value : Option String) (net : MachineConfig → Request → HttpResult) :
    ToolReply :=
  if machines.isEmpty then { text := "No machines configured.", isError := true }
  else
    let results := triggerOnAllResults machines mac value net
    let summary :=
      joinLines ((machines.zip results).map (fun p => p.1.name ++ ": " ++ p.2.message))
    let allSuccess := results.all (fun r => r.success)
    { text := summary, isError := !allSuccess }

/-! ## Clipboard Handoff Retriever (lines 278-395) -/

/-- UUID constant of the packaged "Save Clipboard to File" macro (line 16).
It is defined in the source but getClipboardResult never consults it. -/
def SAVE_CLIPBOARD_MACRO_UID : String := "D03AC8C4-56B0-4903-9682-8B2EC10576FC"

/-- getOutputDir (lines 278-280): machine.outputDir with JS-falsy fallback to
homedir()/Downloads. -/
def getOutputDir (m : MachineConfig) (home : String) : String :=
  match m.outputDir with
  | some d => if d = "" then joinPath home "Downloads" else d
  | none => joinPath home "Downloads"

/-- Core loop of waitForFile in discrete time: `p t` tells whether the path
is readable at millisecond `t`; the k-th check happens at time 100*k; fuel is
the number of remaining checks. Returns the readability flag and the
completion time of this one poll. -/
def waitLoop (p : Nat → Bool) : Nat → Nat → Bool × Nat
  | k, 0 => (false, 100 * k)
  | k, fuel + 1 => if p (100 * k) then (true, 100 * k) else waitLoop p (k + 1) fuel

/-- waitForFile (lines 283-296): poll every 100 ms while elapsed time is
below the timeout; succeed at the first readable check, otherwise report
false once the deadline has passed (at the first poll boundary not below the
timeout). -/
def waitForFile (p : Nat → Bool) (timeoutMs : Nat := 5000) : Bool × Nat :=
  waitLoop p 0 ((timeoutMs + 99) / 100)

/-- The two polls started by getClipboardResult (lines 350-353), text first,
each with a 3000 ms deadline. -/
def clipboardPoll (readableAt : String → Nat → Bool) (textPath imagePath : String) :
    (Bool × Nat) × (Bool × Nat) :=
  (waitForFile (readableAt textPath) 3000, waitForFile (readableAt imagePath) 3000)

/-- Completion time of the Promise.all join over the two polls: both
constituent promises must settle, so the join completes at the later of the
two completion times. -/
def clipboardPollJoinTime (readableAt : String → Nat → Bool)
    (textPath imagePath : String) : Nat :=
  max (clipboardPoll readableAt textPath imagePath).1.2
    (clipboardPoll readableAt textPath imagePath).2.2

/-- Modelled from the spec: the join time the claim describes — the polling
phase "completes as soon as one candidate path becomes readable, otherwise
after both polls exhaust the 3000 ms deadline" (first-success-or-both-timeout
race semantics). Defined only to be compared with the Promise.all join the
source actually performs. -/
def raceJoinTime (readableAt : String → Nat → Bool)
    (textPath imagePath : String) : Nat :=
  let tw := waitForFile (readableAt textPath) 3000
  let iw := waitForFile (readableAt imagePath) 3000
  if tw.1 && iw.1 then min tw.2 iw.2
  else if tw.1 then tw.2
  else if iw.1 then iw.2
  else max tw.2 iw.2

inductive ClipType where
  | text : ClipType
  | image : ClipType
  deriving DecidableEq

structure ClipboardPayload where
  success : Bool
  message : String
  type : Option ClipType := none
  content : Option String := none
  filePath : Option String := none
  deriving DecidableEq

/-- The configuration-missing message (lines 310-329). -/
def configMissingMsg (m : MachineConfig) : String :=
  "Clipboard capture not configured for machine \"" ++ m.name ++ "\".\n\nTo enable clipboard capture:\n1. Import the \"Save Clipboard to File\" macro from the keyboard-maestro-mcp package:\n   - Find \x27save-clipboard-to-file.kmmacros\x27 in the package directory\n   - Double-click to import into Keyboard Maestro on the target machine\n\n2. Get the macro\x27s UUID:\n   - Use list_macros to find \"Save Clipboard to File\" in the \"Keyboard Maestro MCP\" group\n   - Copy its \x27uid\x27 value\n\n3. Add to your machine config:\n   \"saveClipboardMacroUid\": \"<the-uuid-you-copied>\"\n\n4. Also configure outputDir (path where clipboard files are saved):\n   \"outputDir\": \"/path/to/shared/folder\"\n   (Use a folder accessible from where this MCP server runs, e.g., iCloud Drive for cross-machine access)"

/-- The immediate local failure returned when no clipboard macro uid is
configured. -/
def configMissingPayload (m : MachineConfig) : ClipboardPayload :=
  { success := false, message := configMissingMsg m }

def clipTriggerFailMsg (inner : String) : String :=
  "Failed to trigger Save Clipboard macro: " ++ inner

def imageReadFailMsg (e : String) : String := "Failed to read image file: " ++ e

def textReadFailMsg (e : String) : String := "Failed to read text file: " ++ e

def clipNotFoundMsg (textPath imagePath : String) : String :=
  "Clipboard save file not found. Expected: " ++ textPath ++ " or " ++ imagePath ++
    ". Make sure the \"Save Clipboard to File\" macro is installed and the outputDir is configured correctly."

/-- randomUUID().slice(0, 8) (line 332). -/
def requestIdOf (uuid : String) : String := String.mk (uuid.toList.take 8)

/-- Platform oracles consumed by getClipboardResult: home directory, the
generated uuid, the fetch oracle, time-indexed file readability, and the two
read primitives (readFile as bytes for the image, as utf-8 text for the text
file); a read failure carries the thrown error's message. -/
structure ClipEnv where
  home : String
  uuid : String
  net : Request → HttpResult
  readableAt : String → Nat → Bool
  readBytes : String → Except String (List Nat)
  readText : String → Except String String

/-- getClipboardResult (lines 299-395). Returns the payload together with the
trace of network requests issued (empty exactly on the pre-flight
configuration failure). The uid guard mirrors the JS falsy test !macroUid:
absent or empty. -/
def getClipboardResult (m : MachineConfig) (env : ClipEnv) :
    ClipboardPayload × List Request :=
  match m.saveClipboardMacroUid with
  | none => (configMissingPayload m, [])
  | some macroUid =>
    if macroUid = "" then (configMissingPayload m, [])
    else
      let requestId := requestIdOf env.uuid
      let outputDir := getOutputDir m env.home
      let trig := triggerMacro m macroUid (some requestId) env.net
      if !trig.1.success then
        ({ success := false, message := clipTriggerFailMsg trig.1.message }, trig.2)
      else
        let textPath := joinPath outputDir ("clipsav_" ++ requestId ++ ".txt")
        let imagePath := joinPath outputDir ("clipsav_" ++ requestId ++ ".png")
        let polls := clipboardPoll env.readableAt textPath imagePath
        if polls.2.1 then
          match env.readBytes imagePath with
          | .ok bs =>
            ({ success := true
               message := "Clipboard image retrieved successfully"
               type := some .image
               content := some (base64Encode bs)
               filePath := some imagePath }, trig.2)
          | .error e => ({ success := false, message := imageReadFailMsg e }, trig.2)
        else if polls.1.1 then
          match env.readText textPath with
          | .ok t =>
            ({ success := true
               message := "Clipboard text retrieved successfully"
               type := some .text
               content := some t
               filePath := some textPath }, trig.2)
          | .error e => ({ success := false, message := textReadFailMsg e }, trig.2)
        else
          ({ success := false, message := clipNotFoundMsg textPath imagePath }, trig.2)


/-! ## Concrete fixtures shared by witnesses and counterexamples -/

def sampleMachine : MachineConfig :=
  { name := "m1", host := "host1", port := 4490, username := "user", password := "pass"
    secure := false, outputDir := some "/shared/out", saveClipboardMacroUid := some "UID-1" }

def legacyEmpty : LegacyEnv := { host := none, port := none, username := none, password := none, secure := none }

/-! ## Claim theorems -/

/-- C10: decodeHtmlEntities applies its replacement passes sequentially
(numeric decimal, numeric hexadecimal, then the five named entities in
source order), so the output of an earlier pass can itself be decoded by a
later one: "&amp;lt;" decodes to "<" (not to "&lt;"), and "&#38;lt;" also
decodes to "<" — decoding is not a single-pass entity substitution. -/
theorem decode_entities_sequential :
    decodeHtmlEntities "&amp;lt;" = "<" ∧
    decodeHtmlEntities "&#38;lt;" = "<" ∧
    decodeHtmlEntities "&amp;lt;" ≠ "&lt;" := by
  refine ⟨by decide, by decide, by decide⟩

/-- C6: both the catalog read and the trigger call address the encrypted,
authenticated endpoint at port+1 over https, and the machine's secure flag
never changes their scheme or port (flipping it leaves both requests
untouched); by contrast the secure-sensitive getBaseUrl, which neither
operation uses, would pick plain http on the configured port. -/
theorem catalog_trigger_fixed_https :
    ∀ (m : MachineConfig) (b : Bool) (mac : String) (value : Option String),
      listMacrosRequest { m with secure := b } = listMacrosRequest m ∧
      listMacrosUrl m =
        "https://" ++ m.host ++ ":" ++ toString (m.port + 1) ++ "/authenticated.html" ∧
      triggerRequest { m with secure := b } mac value = triggerRequest m mac value ∧
      triggerUrl m mac value =
        "https://" ++ m.host ++ ":" ++ toString (m.port + 1) ++
          "/authenticatedaction.html?" ++ triggerParams mac value ∧
      getBaseUrl { m with secure := false } = "http://" ++ m.host ++ ":" ++ toString m.port :=
  fun _ _ _ _ => ⟨rfl, rfl, rfl, rfl, rfl⟩

/-- C7: malformed machine-list input — the KM_MACHINES string fails to parse
(the JSON.parse oracle reports a throw) or parses to a non-array value —
makes getMachines return the empty registry; the function is total, so
nothing raises past this boundary. -/
theorem getMachines_malformed_empty :
    ∀ (parse : Option Json) (legacy : LegacyEnv),
      (parse = none ∨ ∃ j, parse = some j ∧ j.isArr = false) →
      getMachines (some parse) legacy = [] := by
  intro parse legacy h
  rcases h with rfl | ⟨j, rfl, hj⟩
  · rfl
  · cases j <;> simp_all [getMachines, Json.isArr]

/-- Witness for C7 at concrete malformed inputs. -/
theorem getMachines_malformed_empty_witness :
    getMachines (some (some (Json.str "not an array"))) legacyEmpty = [] ∧
    getMachines (some none) legacyEmpty = [] :=
  ⟨getMachines_malformed_empty (some (Json.str "not an array")) legacyEmpty
      (Or.inr ⟨_, rfl, rfl⟩),
    getMachines_malformed_empty none legacyEmpty (Or.inl rfl)⟩

/-- Well-formed machine object of the KM_MACHINES array, as the claim uses
the term: required connection fields are strings, the optional port is a
positive number, the optional secure flag is a boolean, the remaining
optional fields are strings when present. -/
def wellFormedMachineJson (j : Json) : Bool :=
  (match j.getField "name" with
   | some (.str _) => true | none => true | _ => false) &&
  (match j.getField "host" with | some (.str _) => true | _ => false) &&
  (match j.getField "port" with
   | some (.num n) => decide (0 < n) | none => true | _ => false) &&
  (match j.getField "username" with | some (.str _) => true | _ => false) &&
  (match j.getField "password" with | some (.str _) => true | _ => false) &&
  (match j.getField "secure" with
   | some (.bool _) => true | none => true | _ => false) &&
  (match j.getField "outputDir" with
   | some (.str _) => true | none => true | _ => false) &&
  (match j.getField "saveClipboardMacroUid" with
   | some (.str _) => true | none => true | _ => false)

/-- C8: a valid JSON array of well-formed machine objects resolves to one
record per input object in input order (element i of the registry is the
translation of element i of the array), an omitted port is filled with 4490
and an omitted secure flag with false. -/
theorem getMachines_array_mapped :
    ∀ (ms : List Json) (legacy : LegacyEnv),
      (∀ j ∈ ms, wellFormedMachineJson j = true) →
      (getMachines (some (some (.arr ms))) legacy).length = ms.length ∧
      (∀ i : Nat,
        (getMachines (some (some (.arr ms))) legacy)[i]? = (ms[i]?).map machineOfJson) ∧
      (∀ j ∈ ms,
        (j.getField "port" = none → (machineOfJson j).port = 4490) ∧
        (j.getField "secure" = none → (machineOfJson j).secure = false)) := by
  intro ms legacy _
  refine ⟨by simp [getMachines], fun i => by simp [getMachines], fun j _ => ⟨?_, ?_⟩⟩
  · intro h
    simp [machineOfJson, h]
  · intro h
    simp [machineOfJson, h]

/-- A machine object that omits port and secure (and the optional paths). -/
def sampleJsonMachine : Json :=
  .obj [("name", .str "m1"), ("host", .str "h1"), ("username", .str "u"),
    ("password", .str "p")]

/-- Witness for C8 at a concrete one-element array omitting port and secure. -/
theorem getMachines_array_mapped_witness :
    (getMachines (some (some (.arr [sampleJsonMachine]))) legacyEmpty)[0]? =
      some (machineOfJson sampleJsonMachine) ∧
    (machineOfJson sampleJsonMachine).port = 4490 ∧
    (machineOfJson sampleJsonMachine).secure = false := by
  have h := getMachines_array_mapped [sampleJsonMachine] legacyEmpty
    (by intro j hj; rw [List.mem_singleton] at hj; subst hj; decide)
  refine ⟨by simpa using h.2.1 0, ?_, ?_⟩
  · exact (h.2.2 sampleJsonMachine (List.mem_singleton.mpr rfl)).1 rfl
  · exact (h.2.2 sampleJsonMachine (List.mem_singleton.mpr rfl)).2 rfl

/-- The 401 and 403 messages are never the same string, whatever the machine
name: their lengths differ. -/
theorem authFailedMsg_ne_accessDeniedMsg (m : MachineConfig) :
    authFailedMsg m ≠ accessDeniedMsg m := by
  intro h
  have hlen := congrArg String.length h
  rw [authFailedMsg, accessDeniedMsg] at hlen
  simp only [String.length_append] at hlen
  have h1 : "Authentication failed for ".length = 26 := rfl
  have h2 : ". Check username/password.".length = 26 := rfl
  have h3 : "Access denied for ".length = 18 := rfl
  have h4 : ". The macro may not exist or may not be enabled.".length = 48 := rfl
  rw [h1, h2, h3, h4] at hlen
  omega

/-- C3: outcome classification of triggerMacro. A 2xx response is a success
whose result is the body when non-empty and absent when empty; 401 yields
the authentication-failed outcome; 403 yields the distinct access-denied
(macro absent or disabled) outcome, never equal to the 401 one; any other
non-2xx status yields the generic HTTP-status outcome; a transport failure
yields the connectivity outcome whose message names machine, host and port.
The embedding is a total function, modelling that the call never raises. -/
theorem trigger_outcome_cases :
    ∀ (m : MachineConfig) (mac : String) (s : Nat) (body e : String),
      (200 ≤ s → s ≤ 299 →
        triggerOutcome m mac (.resp s body) =
          { success := true, message := triggerSuccessMsg mac m
            result := if body = "" then none else some body }) ∧
      (triggerOutcome m mac (.resp 401 body) =
        { success := false, message := authFailedMsg m }) ∧
      (triggerOutcome m mac (.resp 403 body) =
        { success := false, message := accessDeniedMsg m }) ∧
      (¬(200 ≤ s ∧ s ≤ 299) → s ≠ 401 → s ≠ 403 →
        triggerOutcome m mac (.resp s body) =
          { success := false, message := triggerHttpFailMsg m s }) ∧
      (triggerOutcome m mac (.failed e) =
        { success := false, message := connectFailMsg m e }) ∧
      authFailedMsg m ≠ accessDeniedMsg m := by
  intro m mac s body e
  refine ⟨?_, rfl, rfl, ?_, rfl, authFailedMsg_ne_accessDeniedMsg m⟩
  · intro h1 h2
    have hok : statusOk s = true := by simp [statusOk]; omega
    simp [triggerOutcome, hok]
  · intro h1 h2 h3
    have hok : statusOk s = false := by
      simp [statusOk]
      omega
    simp [triggerOutcome, hok, h2, h3]

/-- Witness for C3: the 2xx and generic-status branches at concrete inputs. -/
theorem trigger_outcome_cases_witness :
    triggerOutcome sampleMachine "M1" (.resp 200 "42") =
      { success := true, message := triggerSuccessMsg "M1" sampleMachine
        result := some "42" } ∧
    triggerOutcome sampleMachine "M1" (.resp 500 "oops") =
      { success := false, message := triggerHttpFailMsg sampleMachine 500 } := by
  constructor
  · have h := (trigger_outcome_cases sampleMachine "M1" 200 "42" "e").1
      (by decide) (by decide)
    simpa using h
  · exact (trigger_outcome_cases sampleMachine "M1" 500 "oops" "e").2.2.2.1
      (by omega) (by decide) (by decide)


/-- Fan-out fixture machines. -/
def fanMachine1 : MachineConfig :=
  { name := "m1", host := "h1", port := 4490, username := "u", password := "p"
    secure := false, outputDir := none, saveClipboardMacroUid := none }

def fanMachine2 : MachineConfig :=
  { name := "m2", host := "h2", port := 4490, username := "u", password := "p"
    secure := false, outputDir := none, saveClipboardMacroUid := none }

def fanMachine3 : MachineConfig :=
  { name := "m3", host := "h3", port := 4490, username := "u", password := "p"
    secure := false, outputDir := none, saveClipboardMacroUid := none }

def fanMachines : List MachineConfig := [fanMachine1, fanMachine2, fanMachine3]

/-- Fan-out fixture network: machine m2's transport throws, the others
answer 200 with an empty body. -/
def fanNet : MachineConfig → Request → HttpResult :=
  fun m _ => if m.name = "m2" then .failed "ECONNREFUSED" else .resp 200 ""

/-- C4: triggerOnAll issues the trigger call to every registered machine and
returns exactly one outcome per machine in registry order (outcome i is the
classification of machine i's own response); the handler reports aggregate
success as the conjunction of the individual successes (isError is false iff
every outcome succeeded); and per-machine calls are isolated: outcome i
depends only on machine i's own exchange, so changing every other machine's
response (including into transport exceptions) leaves it untouched. -/
theorem triggerOnAll_per_machine :
    ∀ (machines : List MachineConfig) (mac : String) (value : Option String)
      (net : MachineConfig → Request → HttpResult),
      machines ≠ [] →
      (triggerOnAllResults machines mac value net).length = machines.length ∧
      (∀ i : Nat,
        (triggerOnAllResults machines mac value net)[i]? =
          (machines[i]?).map
            (fun m => triggerOutcome m mac (net m (triggerRequest m mac value)))) ∧
      ((triggerOnAllHandler machines mac value net).isError = false ↔
        ∀ r ∈ triggerOnAllResults machines mac value net, r.success = true) ∧
      (∀ (net2 : MachineConfig → Request → HttpResult) (i : Nat) (m : MachineConfig),
        machines[i]? = some m → net2 m = net m →
        (triggerOnAllResults machines mac value net2)[i]? =
          (triggerOnAllResults machines mac value net)[i]?) := by
  intro machines mac value net hne
  have hlen : (triggerOnAllResults machines mac value net).length = machines.length := by
    simp [triggerOnAllResults]
  have hidx : ∀ (net3 : MachineConfig → Request → HttpResult) (i : Nat),
      (triggerOnAllResults machines mac value net3)[i]? =
        (machines[i]?).map
          (fun m => triggerOutcome m mac (net3 m (triggerRequest m mac value))) := by
    intro net3 i
    simp [triggerOnAllResults, triggerMacro]
  refine ⟨hlen, hidx net, ?_, ?_⟩
  · have hne2 : machines.isEmpty = false := by
      cases machines with
      | nil => exact absurd rfl hne
      | cons a l => rfl
    rw [triggerOnAllHandler, if_neg (by simp [hne2])]
    cases hall : (triggerOnAllResults machines mac value net).all (fun r => r.success) with
    | true =>
      simp only [hall, Bool.not_true]
      exact ⟨fun _ => List.all_eq_true.mp hall, fun _ => trivial⟩
    | false =>
      simp only [hall, Bool.not_false]
      constructor
      · intro h
        exact absurd h (by simp)
      · intro h
        exact absurd (List.all_eq_true.mpr h) (by simp [hall])
  · intro net2 i m hm hnet
    rw [hidx net2 i, hidx net i, hm]
    simp [hnet]

/-- Witness for C4: three machines, the second one's transport fails; all
three outcomes are reported in order, the siblings succeed, and the
aggregate is a failure. -/
theorem triggerOnAll_per_machine_witness :
    (triggerOnAllResults fanMachines "Mac" none fanNet).length = 3 ∧
    (triggerOnAllResults fanMachines "Mac" none fanNet)[0]? =
      some { success := true, message := triggerSuccessMsg "Mac" fanMachine1 } ∧
    (triggerOnAllResults fanMachines "Mac" none fanNet)[1]? =
      some { success := false, message := connectFailMsg fanMachine2 "ECONNREFUSED" } ∧
    (triggerOnAllResults fanMachines "Mac" none fanNet)[2]? =
      some { success := true, message := triggerSuccessMsg "Mac" fanMachine3 } ∧
    (triggerOnAllHandler fanMachines "Mac" none fanNet).isError = true := by
  have h := triggerOnAll_per_machine fanMachines "Mac" none fanNet (by decide)
  refine ⟨h.1.trans (by decide), ?_, ?_, ?_, ?_⟩
  · rw [h.2.1 0]; decide
  · rw [h.2.1 1]; decide
  · rw [h.2.1 2]; decide
  · cases hE : (triggerOnAllHandler fanMachines "Mac" none fanNet).isError with
    | false =>
      exfalso
      have hall := h.2.2.1.mp hE
      have hmem : (TriggerOutcome.mk false (connectFailMsg fanMachine2 "ECONNREFUSED") none) ∈
          triggerOnAllResults fanMachines "Mac" none fanNet := by decide
      exact absurd (hall _ hmem) (by decide)
    | true => rfl


/-- Success characterization of the polling loop: some check within the fuel
budget sees the file. -/
theorem waitLoop_true_iff (p : Nat → Bool) :
    ∀ (fuel k : Nat),
      (waitLoop p k fuel).1 = true ↔ ∃ j, j < fuel ∧ p (100 * (k + j)) = true := by
  intro fuel
  induction fuel with
  | zero => intro k; simp [waitLoop]
  | succ n ih =>
    intro k
    rw [waitLoop]
    cases hp : p (100 * k) with
    | true =>
      exact iff_of_true (by simp) ⟨0, Nat.succ_pos n, by simpa using hp⟩
    | false =>
      rw [if_neg (by simp [hp])]
      rw [ih (k + 1)]
      constructor
      · rintro ⟨j, hj, hpj⟩
        refine ⟨j + 1, by omega, ?_⟩
        rw [show k + (j + 1) = k + 1 + j by omega]
        exact hpj
      · rintro ⟨j, hj, hpj⟩
        cases j with
        | zero =>
          rw [Nat.add_zero] at hpj
          rw [hpj] at hp
          cases hp
        | succ j2 =>
          refine ⟨j2, by omega, ?_⟩
          rw [show k + 1 + j2 = k + (j2 + 1) by omega]
          exact hpj

/-- The loop returns at the first successful check, reporting its time. -/
theorem waitLoop_first (p : Nat → Bool) :
    ∀ (fuel k i : Nat), i < fuel → p (100 * (k + i)) = true →
      (∀ j, j < i → p (100 * (k + j)) = false) →
      waitLoop p k fuel = (true, 100 * (k + i)) := by
  intro fuel
  induction fuel with
  | zero => intro k i hi; exact absurd hi (Nat.not_lt_zero i)
  | succ n ih =>
    intro k i hi hp hmin
    rw [waitLoop]
    cases i with
    | zero =>
      rw [Nat.add_zero] at hp
      simp [hp]
    | succ i2 =>
      have h0 : p (100 * k) = false := by simpa using hmin 0 (Nat.succ_pos i2)
      rw [if_neg (by simp [h0])]
      have hp2 : p (100 * (k + 1 + i2)) = true := by
        rw [show k + 1 + i2 = k + (i2 + 1) by omega]
        exact hp
      have hmin2 : ∀ j, j < i2 → p (100 * (k + 1 + j)) = false := by
        intro j hj
        rw [show k + 1 + j = k + (j + 1) by omega]
        exact hmin (j + 1) (by omega)
      have := ih (k + 1) i2 (by omega) hp2 hmin2
      rw [this, show k + 1 + i2 = k + (i2 + 1) by omega]

/-- When no check succeeds, the loop reports false at the deadline boundary. -/
theorem waitLoop_none (p : Nat → Bool) :
    ∀ (fuel k : Nat), (∀ j, j < fuel → p (100 * (k + j)) = false) →
      waitLoop p k fuel = (false, 100 * (k + fuel)) := by
  intro fuel
  induction fuel with
  | zero => intro k _; simp [waitLoop]
  | succ n ih =>
    intro k h
    rw [waitLoop]
    have h0 : p (100 * k) = false := by simpa using h 0 (Nat.succ_pos n)
    rw [if_neg (by simp [h0])]
    have := ih (k + 1) (fun j hj => by
      rw [show k + 1 + j = k + (j + 1) by omega]
      exact h (j + 1) (by omega))
    rw [this, show k + 1 + n = k + (n + 1) by omega]

/-- C2 (amended): each candidate path is polled independently at the fixed
100 ms interval under the 3000 ms deadline (checks at 100·k for k < 30,
success at the first readable check, otherwise false at the 3000 ms
boundary), and the polling phase is joined with both-complete (Promise.all)
semantics: it completes at the later of the two polls' completion times, not
at the first success — when only one file ever appears, the phase still
lasts the full 3000 ms because the other poll must exhaust its deadline. -/
theorem clipboard_poll_both_complete :
    ∀ (p : Nat → Bool) (ra : String → Nat → Bool) (tp ip : String),
      ((waitForFile p 3000).1 = true ↔ ∃ k, k < 30 ∧ p (100 * k) = true) ∧
      (∀ k, k < 30 → p (100 * k) = true → (∀ j, j < k → p (100 * j) = false) →
        waitForFile p 3000 = (true, 100 * k)) ∧
      ((∀ k, k < 30 → p (100 * k) = false) → waitForFile p 3000 = (false, 3000)) ∧
      clipboardPoll ra tp ip = (waitForFile (ra tp) 3000, waitForFile (ra ip) 3000) ∧
      clipboardPollJoinTime ra tp ip =
        max (waitForFile (ra tp) 3000).2 (waitForFile (ra ip) 3000).2 := by
  intro p ra tp ip
  refine ⟨?_, ?_, ?_, rfl, rfl⟩
  · have h := waitLoop_true_iff p 30 0
    simpa [waitForFile] using h
  · intro k hk hp hmin
    have h := waitLoop_first p 30 0 k hk (by simpa using hp)
      (fun j hj => by simpa using hmin j hj)
    simpa [waitForFile] using h
  · intro hnone
    have h := waitLoop_none p 30 0 (fun j hj => by simpa using hnone j hj)
    simpa [waitForFile] using h

/-- Witness for C2 (amended) at concrete readability schedules: a file that
becomes readable between checks is seen at the next 100 ms boundary, and a
file that never appears makes its poll complete at 3000 ms. -/
theorem clipboard_poll_both_complete_witness :
    waitForFile (fun t => decide (250 ≤ t)) 3000 = (true, 300) ∧
    waitForFile (fun _ => false) 3000 = (false, 3000) ∧
    clipboardPollJoinTime (fun q t => q == "text" && decide (250 ≤ t)) "text" "img" = 3000 := by
  have h1 := clipboard_poll_both_complete (fun t => decide (250 ≤ t))
    (fun q t => q == "text" && decide (250 ≤ t)) "text" "img"
  refine ⟨?_, ?_, ?_⟩
  · have := h1.2.1 3 (by decide) (by decide) (by decide)
    simpa using this
  · have h2 := clipboard_poll_both_complete (fun _ => false)
      (fun q t => q == "text" && decide (250 ≤ t)) "text" "img"
    exact h2.2.2.1 (by decide)
  · rw [h1.2.2.2.2]
    decide

/-- C2 counterexample: with the text path readable from time 0 and the image
path never appearing, the first-success-or-both-timeout join the claim
describes would complete at time 0, but the Promise.all join the code
performs completes only at 3000 ms, when the losing poll exhausts its
deadline. -/
theorem clipboard_poll_not_race :
    waitForFile ((fun q (_ : Nat) => q == "t") "t") 3000 = (true, 0) ∧
    waitForFile ((fun q (_ : Nat) => q == "t") "i") 3000 = (false, 3000) ∧
    raceJoinTime (fun q _ => q == "t") "t" "i" = 0 ∧
    clipboardPollJoinTime (fun q _ => q == "t") "t" "i" = 3000 ∧
    raceJoinTime (fun q _ => q == "t") "t" "i" ≠
      clipboardPollJoinTime (fun q _ => q == "t") "t" "i" := by
  refine ⟨by decide, by decide, by decide, by decide, by decide⟩

/-- C1 counterexample fixtures: a machine with outputDir absent but the
clipboard macro uid configured, and an environment where the network answers
200 and every candidate file is readable. -/
def noDirMachine : MachineConfig :=
  { name := "nodir", host := "h", port := 4490, username := "u", password := "p"
    secure := false, outputDir := none, saveClipboardMacroUid := some "UID-X" }

def clipEnvAllOk : ClipEnv :=
  { home := "/home/me", uuid := "0a1b2c3d-4e5f", net := fun _ => .resp 200 ""
    readableAt := fun _ _ => true, readBytes := fun _ => .ok [1, 2, 3]
    readText := fun _ => .ok "hello" }

/-- C1 counterexample: with outputDir absent (and the macro uid configured)
the capture does not fail with the configuration-missing message, and it
does make the trigger network call — absence of outputDir alone does not
disable clipboard capture. -/
theorem clipboard_outputDir_not_required :
    (getClipboardResult noDirMachine clipEnvAllOk).1.success = true ∧
    (getClipboardResult noDirMachine clipEnvAllOk).1 ≠ configMissingPayload noDirMachine ∧
    (getClipboardResult noDirMachine clipEnvAllOk).2 ≠ [] := by
  refine ⟨by decide, by decide, by decide⟩

/-- C1 (amended): the pre-flight check of captureClipboard requires only the
per-machine saveClipboardMacroUid. When it is absent or empty (the JS falsy
test) the call fails immediately with the configuration-missing message and
issues no network request; when it is set, the trigger request is always
issued, whether or not outputDir is configured — the well-known default
constant is never consulted as a fallback identifier, and a missing
outputDir merely falls back to the home Downloads directory. -/
theorem clipboard_preflight_uid_only :
    ∀ (m : MachineConfig) (env : ClipEnv),
      ((m.saveClipboardMacroUid = none ∨ m.saveClipboardMacroUid = some "") →
        getClipboardResult m env = (configMissingPayload m, [])) ∧
      (∀ u, m.saveClipboardMacroUid = some u → u ≠ "" →
        (getClipboardResult m env).2 =
          [triggerRequest m u (some (requestIdOf env.uuid))]) ∧
      (m.outputDir = none → getOutputDir m env.home = joinPath env.home "Downloads") := by
  intro m env
  refine ⟨?_, ?_, ?_⟩
  · rintro (h | h) <;> simp [getClipboardResult, h]
  · intro u hu hne
    simp only [getClipboardResult, hu]
    rw [if_neg hne]
    split <;> first
      | rfl
      | (split <;> first
          | rfl
          | (split <;> first
              | rfl
              | (split <;> rfl)))
  · intro h
    simp [getOutputDir, h]

/-- Fixture: machine with no clipboard macro uid configured. -/
def noUidMachine : MachineConfig :=
  { name := "nouid", host := "h", port := 4490, username := "u", password := "p"
    secure := false, outputDir := some "/out", saveClipboardMacroUid := none }

/-- Witness for C1 (amended): a missing uid fails locally with no request; a
configured uid issues exactly the trigger request even without outputDir. -/
theorem clipboard_preflight_uid_only_witness :
    getClipboardResult noUidMachine clipEnvAllOk = (configMissingPayload noUidMachine, []) ∧
    (getClipboardResult noDirMachine clipEnvAllOk).2 =
      [triggerRequest noDirMachine "UID-X" (some "0a1b2c3d")] := by
  constructor
  · exact (clipboard_preflight_uid_only noUidMachine clipEnvAllOk).1 (Or.inl rfl)
  · have h := (clipboard_preflight_uid_only noDirMachine clipEnvAllOk).2.1 "UID-X" rfl
      (by decide)
    rw [h]
    decide

/-- C9: whenever the image candidate path became readable within the wait —
whatever the text poll reported, in particular when both files appeared —
the result is built from the image file: success with type image, content
the base64 encoding of the file's bytes, and filePath the image path. -/
theorem clipboard_image_priority :
    ∀ (m : MachineConfig) (env : ClipEnv) (u : String) (bs : List Nat),
      m.saveClipboardMacroUid = some u → u ≠ "" →
      (triggerOutcome m u
        (env.net (triggerRequest m u (some (requestIdOf env.uuid))))).success = true →
      (waitForFile (env.readableAt (joinPath (getOutputDir m env.home)
        ("clipsav_" ++ requestIdOf env.uuid ++ ".png"))) 3000).1 = true →
      env.readBytes (joinPath (getOutputDir m env.home)
        ("clipsav_" ++ requestIdOf env.uuid ++ ".png")) = .ok bs →
      (getClipboardResult m env).1 =
        { success := true, message := "Clipboard image retrieved successfully"
          type := some .image, content := some (base64Encode bs)
          filePath := some (joinPath (getOutputDir m env.home)
            ("clipsav_" ++ requestIdOf env.uuid ++ ".png")) } := by
  intro m env u bs hu hne htrig himg hread
  simp only [getClipboardResult, hu]
  rw [if_neg hne]
  have h1 : (!(triggerMacro m u (some (requestIdOf env.uuid)) env.net).1.success) = false := by
    simp [triggerMacro, htrig]
  rw [if_neg (by simp [h1])]
  have h2 : (clipboardPoll env.readableAt
      (joinPath (getOutputDir m env.home) ("clipsav_" ++ requestIdOf env.uuid ++ ".txt"))
      (joinPath (getOutputDir m env.home) ("clipsav_" ++ requestIdOf env.uuid ++ ".png"))).2.1
      = true := by
    simpa [clipboardPoll] using himg
  rw [if_pos h2, hread]

/-- Witness for C9: both candidate files readable; the image wins. -/
theorem clipboard_image_priority_witness :
    (getClipboardResult sampleMachine clipEnvAllOk).1 =
      { success := true, message := "Clipboard image retrieved successfully"
        type := some .image, content := some (base64Encode [1, 2, 3])
        filePath := some (joinPath (getOutputDir sampleMachine clipEnvAllOk.home)
          ("clipsav_" ++ requestIdOf clipEnvAllOk.uuid ++ ".png")) } :=
  clipboard_image_priority sampleMachine clipEnvAllOk "UID-1" [1, 2, 3]
    rfl (by decide) (by decide) (by decide) rfl


/-- C5 counterexample: the document consists of one optgroup containing one
option tag that carries both a label attribute (decoding, after trimming, to
the non-empty name "N") and a value attribute ("U") — but written value
first. The claim requires the entry ("N", "U", "G") to be returned;
listMacros returns no entries, because the extraction pattern only matches a
label followed by a value. -/
theorem listMacros_reversed_attrs_dropped :
    "<optgroup label=\"G\"><option value=\"U\" label=\"N\"></optgroup>" =
      "<optgroup label=\"G\">" ++ "<option value=\"U\" label=\"N\">" ++ "</optgroup>" ∧
    decodeHtmlEntities (jsTrim "N") = "N" ∧ ("N" : String) ≠ "" ∧ ("U" : String) ≠ "" ∧
    listMacrosEntries
      "<optgroup label=\"G\"><option value=\"U\" label=\"N\"></optgroup>" = [] := by
  refine ⟨by decide, by decide, by decide, by decide, by decide⟩

/-! ## Soundness of the catalog scanners

Every entry listMacros returns is traced back to an actual
label-before-value option tag inside an actual optgroup of the parsed
region. -/

/-- Case-insensitive correspondence between a pattern literal and the
document characters that matched it. -/
def ciEqList (pat actual : List Char) : Prop :=
  List.Forall₂ (fun a b => a.toLower = b.toLower) pat actual

theorem matchLitCI_sound :
    ∀ (lit cs mtch rest : List Char), matchLitCI lit cs = some (mtch, rest) →
      cs = mtch ++ rest ∧ ciEqList lit mtch := by
  intro lit
  induction lit with
  | nil =>
    intro cs mtch rest h
    rw [matchLitCI] at h
    obtain ⟨rfl, rfl⟩ := Prod.mk.inj (Option.some.inj h)
    exact ⟨rfl, List.Forall₂.nil⟩
  | cons p ps ih =>
    intro cs mtch rest h
    cases cs with
    | nil => exact absurd h (by rw [matchLitCI]; simp)
    | cons c cs2 =>
      rw [matchLitCI] at h
      by_cases hc : lowerEq p c = true
      · rw [if_pos hc] at h
        cases hm : matchLitCI ps cs2 with
        | none => rw [hm] at h; cases h
        | some pr =>
          rw [hm] at h
          obtain ⟨rfl, rfl⟩ := Prod.mk.inj (Option.some.inj h)
          obtain ⟨ha, hb⟩ := ih cs2 pr.1 pr.2 (by rw [hm])
          refine ⟨by rw [List.cons_append, ← ha], ?_⟩
          exact List.Forall₂.cons (by simpa [lowerEq] using hc) hb
      · rw [if_neg hc] at h
        cases h

theorem splitsAsc_mem :
    ∀ (cs lit : List Char) (ok : Char → Bool) (t : List Char × List Char × List Char),
      t ∈ splitsAsc lit ok cs →
      cs = t.1 ++ t.2.1 ++ t.2.2 ∧ (∀ c ∈ t.1, ok c = true) ∧ ciEqList lit t.2.1 := by
  intro cs
  induction cs with
  | nil =>
    intro lit ok t ht
    rw [splitsAsc] at ht
    cases hm : matchLitCI lit [] with
    | none => rw [hm] at ht; cases ht
    | some pr =>
      rw [hm] at ht
      rcases List.mem_singleton.mp ht with rfl
      obtain ⟨ha, hb⟩ := matchLitCI_sound lit [] pr.1 pr.2 (by rw [hm])
      exact ⟨by simpa using ha, by simp, hb⟩
  | cons c rest ih =>
    intro lit ok t ht
    rw [splitsAsc, List.mem_append] at ht
    rcases ht with ht | ht
    · cases hm : matchLitCI lit (c :: rest) with
      | none => rw [hm] at ht; cases ht
      | some pr =>
        rw [hm] at ht
        rcases List.mem_singleton.mp ht with rfl
        obtain ⟨ha, hb⟩ := matchLitCI_sound lit (c :: rest) pr.1 pr.2 (by rw [hm])
        exact ⟨by simpa using ha, by simp, hb⟩
    · by_cases hok : ok c = true
      · rw [if_pos hok, List.mem_map] at ht
        obtain ⟨t2, ht2, rfl⟩ := ht
        obtain ⟨ha, hb, hc2⟩ := ih lit ok t2 ht2
        refine ⟨by simp [ha], ?_, hc2⟩
        intro x hx
        rcases List.mem_cons.mp hx with rfl | hx
        · exact hok
        · exact hb x hx
      · rw [if_neg hok] at ht
        cases ht

theorem firstSome_eq_some {α β : Type} (f : α → Option β) :
    ∀ (l : List α) (b : β), firstSome f l = some b → ∃ a ∈ l, f a = some b := by
  intro l
  induction l with
  | nil => intro b h; cases h
  | cons a rest ih =>
    intro b h
    rw [firstSome] at h
    cases hf : f a with
    | some b2 =>
      rw [hf] at h
      exact ⟨a, List.mem_cons_self a rest, by rw [hf]; exact h⟩
    | none =>
      rw [hf] at h
      obtain ⟨x, hx, hfx⟩ := ih b h
      exact ⟨x, List.mem_cons_of_mem a hx, hfx⟩

theorem triple_inj {α β γ : Type} {a1 b1 : α} {a2 b2 : β} {a3 b3 : γ}
    (h : (a1, a2, a3) = (b1, b2, b3)) : a1 = b1 ∧ a2 = b2 ∧ a3 = b3 := by
  obtain ⟨h1, h2⟩ := Prod.mk.inj h
  obtain ⟨h3, h4⟩ := Prod.mk.inj h2
  exact ⟨h1, h3, h4⟩

theorem findCI_sound :
    ∀ (cs lit skipped mtch rest : List Char), findCI lit cs = some (skipped, mtch, rest) →
      cs = skipped ++ mtch ++ rest ∧ ciEqList lit mtch := by
  intro cs
  induction cs with
  | nil =>
    intro lit skipped mtch rest h
    rw [findCI, Option.map_eq_some'] at h
    obtain ⟨pr, hpr, heq⟩ := h
    obtain ⟨rfl, rfl, rfl⟩ := triple_inj heq
    obtain ⟨ha, hb⟩ := matchLitCI_sound lit [] pr.1 pr.2 (by rw [hpr])
    exact ⟨by simpa using ha, hb⟩
  | cons c rest0 ih =>
    intro lit skipped mtch rest h
    rw [findCI] at h
    cases hm : matchLitCI lit (c :: rest0) with
    | some pr =>
      rw [hm] at h
      obtain ⟨rfl, rfl, rfl⟩ := triple_inj (Option.some.inj h)
      obtain ⟨ha, hb⟩ := matchLitCI_sound lit (c :: rest0) pr.1 pr.2 (by rw [hm])
      exact ⟨by simpa using ha, hb⟩
    | none =>
      rw [hm, Option.map_eq_some'] at h
      obtain ⟨t2, ht2, heq⟩ := h
      obtain ⟨rfl, rfl, rfl⟩ := triple_inj heq
      obtain ⟨ha, hb⟩ := ih lit t2.1 t2.2.1 t2.2.2 (by rw [ht2])
      exact ⟨by simp [ha], hb⟩

/-- The first element past a dropWhile fails the predicate. -/
theorem dropWhile_head_not (p : Char → Bool) :
    ∀ (cs : List Char) (c : Char) (rest : List Char),
      cs.dropWhile p = c :: rest → p c = false := by
  intro cs
  induction cs with
  | nil => intro c rest h; cases h
  | cons a l ih =>
    intro c rest h
    rw [List.dropWhile_cons] at h
    by_cases ha : p a = true
    · rw [if_pos ha] at h
      exact ih c rest h
    · rw [if_neg ha] at h
      obtain ⟨rfl, -⟩ := List.cons.inj h
      exact Bool.eq_false_iff.mpr ha

theorem mem_concatAll {α : Type} :
    ∀ (ls : List (List α)) (a : α), a ∈ concatAll ls → ∃ l ∈ ls, a ∈ l := by
  intro ls
  induction ls with
  | nil => intro a h; cases h
  | cons l rest ih =>
    intro a h
    rw [concatAll, List.foldr_cons, List.mem_append] at h
    rcases h with h | h
    · exact ⟨l, List.mem_cons_self l rest, h⟩
    · obtain ⟨l2, hl2, hal2⟩ := ih a h
      exact ⟨l2, List.mem_cons_of_mem l hl2, hal2⟩


/-- A character on which notQuote fails is the double quote. -/
theorem eq_quote_of_notQuote_false {c : Char} (h : notQuote c = false) : c = '"' := by
  simpa [notQuote] using h

/-- A character on which notGt fails is the closing angle bracket. -/
theorem eq_gt_of_notGt_false {c : Char} (h : notGt c = false) : c = '>' := by
  simpa [notGt] using h

theorem ne_quote_of_mem_takeWhile {cs : List Char} {c : Char}
    (h : c ∈ cs.takeWhile notQuote) : c ≠ '"' := by
  simpa [notQuote] using List.mem_takeWhile_imp h

theorem ne_gt_of_mem_takeWhile {cs : List Char} {c : Char}
    (h : c ∈ cs.takeWhile notGt) : c ≠ '>' := by
  simpa [notGt] using List.mem_takeWhile_imp h

/-- Shape evidence: cs is exactly an option tag carrying a label attribute
followed by a value attribute (with the i-flag literal pieces, gaps free of
closing brackets, captures free of quotes) followed by rest. -/
def OptionTagAt (cs lab v rest : List Char) : Prop :=
  ∃ m0 g1 mL g2 mV g3,
    cs = m0 ++ g1 ++ mL ++ lab ++ '"' :: (g2 ++ mV ++ v ++ '"' :: (g3 ++ '>' :: rest)) ∧
    ciEqList optionLit m0 ∧ ciEqList labelLit mL ∧ ciEqList valueLit mV ∧
    (∀ c ∈ g1, c ≠ '>') ∧ (∀ c ∈ g2, c ≠ '>') ∧ (∀ c ∈ g3, c ≠ '>') ∧
    (∀ c ∈ lab, c ≠ '"') ∧ (∀ c ∈ v, c ≠ '"')

/-- Somewhere in cs there is an option tag with these captures. -/
def OptionTagShape (cs lab v : List Char) : Prop :=
  ∃ pre suffix rest, cs = pre ++ suffix ∧ OptionTagAt suffix lab v rest

theorem matchOptionTail_sound :
    ∀ (cs2 lab v rest : List Char), matchOptionTail cs2 = some (lab, v, rest) →
      ∃ g2 mV g3,
        cs2 = lab ++ '"' :: (g2 ++ mV ++ v ++ '"' :: (g3 ++ '>' :: rest)) ∧
        ciEqList valueLit mV ∧
        (∀ c ∈ g2, c ≠ '>') ∧ (∀ c ∈ g3, c ≠ '>') ∧
        (∀ c ∈ lab, c ≠ '"') ∧ (∀ c ∈ v, c ≠ '"') := by
  intro cs2 lab v rest h
  rw [matchOptionTail] at h
  cases hd : cs2.dropWhile notQuote with
  | nil => rw [hd] at h; cases h
  | cons q cs4 =>
    rw [hd] at h
    obtain ⟨t, htmem, hft⟩ := firstSome_eq_some _ _ _ h
    obtain ⟨hsplit, hok, hciV⟩ :=
      splitsAsc_mem cs4 valueLit notGt t (List.mem_reverse.mp htmem)
    cases hd2 : t.2.2.dropWhile notQuote with
    | nil => rw [hd2] at hft; cases hft
    | cons q2 cs7 =>
      rw [hd2] at hft
      dsimp only at hft
      cases hd3 : cs7.dropWhile notGt with
      | nil => rw [hd3] at hft; cases hft
      | cons g cs9 =>
        rw [hd3] at hft
        obtain ⟨h1, h2, h3⟩ := triple_inj (Option.some.inj hft)
        subst h1 h2 h3
        have hq := eq_quote_of_notQuote_false (dropWhile_head_not notQuote cs2 q cs4 hd)
        have hq2 := eq_quote_of_notQuote_false (dropWhile_head_not notQuote t.2.2 q2 cs7 hd2)
        have hg := eq_gt_of_notGt_false (dropWhile_head_not notGt cs7 g cs9 hd3)
        subst hq hq2 hg
        have e1 : cs2 = cs2.takeWhile notQuote ++ '"' :: cs4 := by
          conv_lhs => rw [← List.takeWhile_append_dropWhile (p := notQuote) (l := cs2)]
          rw [hd]
        have e2 : t.2.2 = t.2.2.takeWhile notQuote ++ '"' :: cs7 := by
          conv_lhs => rw [← List.takeWhile_append_dropWhile (p := notQuote) (l := t.2.2)]
          rw [hd2]
        have e3 : cs7 = cs7.takeWhile notGt ++ '>' :: cs9 := by
          conv_lhs => rw [← List.takeWhile_append_dropWhile (p := notGt) (l := cs7)]
          rw [hd3]
        refine ⟨t.1, t.2.1, cs7.takeWhile notGt, ?_, hciV,
          fun c hc => by simpa [notGt] using hok c hc,
          fun c hc => ne_gt_of_mem_takeWhile hc,
          fun c hc => ne_quote_of_mem_takeWhile hc,
          fun c hc => ne_quote_of_mem_takeWhile hc⟩
        set A := cs2.takeWhile notQuote with hA
        set D := t.2.2.takeWhile notQuote with hD
        set E := cs7.takeWhile notGt with hE
        rw [e1, hsplit, e2, e3]
        simp

theorem matchOptionAt_sound :
    ∀ (cs lab v rest : List Char), matchOptionAt cs = some (lab, v, rest) →
      OptionTagAt cs lab v rest := by
  intro cs lab v rest h
  rw [matchOptionAt] at h
  cases hm : matchLitCI optionLit cs with
  | none => rw [hm] at h; cases h
  | some pr =>
    rw [hm] at h
    obtain ⟨t, htmem, hft⟩ := firstSome_eq_some _ _ _ h
    obtain ⟨hsplit, hok, hciL⟩ :=
      splitsAsc_mem pr.2 labelLit notGt t (List.mem_reverse.mp htmem)
    obtain ⟨g2, mV, g3, htail, hciV, hg2, hg3, hlab, hv⟩ :=
      matchOptionTail_sound t.2.2 lab v rest hft
    obtain ⟨hcs, hciO⟩ := matchLitCI_sound optionLit cs pr.1 pr.2 (by rw [hm])
    refine ⟨pr.1, t.1, t.2.1, g2, mV, g3, ?_, hciO, hciL, hciV,
      fun c hc => by simpa [notGt] using hok c hc, hg2, hg3, hlab, hv⟩
    rw [hcs, hsplit, htail]
    simp

theorem optionTagShape_suffix {cs2 cs : List Char} {lab v : List Char}
    (hsuf : cs2 <:+ cs) (h : OptionTagShape cs2 lab v) : OptionTagShape cs lab v := by
  obtain ⟨xs, rfl⟩ := hsuf
  obtain ⟨pre, suffix, rest, rfl, hat⟩ := h
  exact ⟨xs ++ pre, suffix, rest, by simp, hat⟩

theorem scanOptionsF_sound :
    ∀ (fuel : Nat) (cs : List Char) (t : List Char × List Char),
      t ∈ scanOptionsF fuel cs → OptionTagShape cs t.1 t.2 := by
  intro fuel
  induction fuel with
  | zero => intro cs t ht; cases ht
  | succ n ih =>
    intro cs t ht
    cases cs with
    | nil => cases ht
    | cons c rest0 =>
      rw [scanOptionsF] at ht
      cases hm : matchOptionAt (c :: rest0) with
      | none =>
        rw [hm] at ht
        exact optionTagShape_suffix (List.suffix_cons c rest0) (ih rest0 t ht)
      | some mt =>
        rw [hm] at ht
        rcases List.mem_cons.mp ht with heq | h2
        · have hat := matchOptionAt_sound (c :: rest0) mt.1 mt.2.1 mt.2.2 (by rw [hm])
          rw [heq]
          exact ⟨[], c :: rest0, mt.2.2, rfl, hat⟩
        · have hshape := ih mt.2.2 t h2
          obtain ⟨m0, g1, mL, g2, mV, g3, hdec, -⟩ :=
            matchOptionAt_sound (c :: rest0) mt.1 mt.2.1 mt.2.2 (by rw [hm])
          refine optionTagShape_suffix ⟨m0 ++ g1 ++ mL ++ mt.1 ++
            '"' :: (g2 ++ mV ++ mt.2.1 ++ '"' :: (g3 ++ ['>'])), ?_⟩ hshape
          rw [hdec]
          simp

/-- Shape evidence: cs is exactly an optgroup opening tag with its label
capture, the lazily captured content, the closing tag, and rest. -/
def OptgroupAt (cs gLab content rest : List Char) : Prop :=
  ∃ m0 g1 mL g2 mEnd,
    cs = m0 ++ g1 ++ mL ++ gLab ++ '"' :: (g2 ++ '>' :: (content ++ mEnd ++ rest)) ∧
    ciEqList optgroupLit m0 ∧ ciEqList labelLit mL ∧ ciEqList closeOptgroupLit mEnd ∧
    (∀ c ∈ g1, c ≠ '>') ∧ (∀ c ∈ g2, c ≠ '>') ∧ (∀ c ∈ gLab, c ≠ '"')

/-- Somewhere in cs there is an optgroup with these captures. -/
def OptgroupShape (cs gLab content : List Char) : Prop :=
  ∃ pre suffix rest, cs = pre ++ suffix ∧ OptgroupAt suffix gLab content rest

theorem matchOptgroupTail_sound :
    ∀ (cs2 gLab content rest : List Char),
      matchOptgroupTail cs2 = some (gLab, content, rest) →
      ∃ g2 mEnd,
        cs2 = gLab ++ '"' :: (g2 ++ '>' :: (content ++ mEnd ++ rest)) ∧
        ciEqList closeOptgroupLit mEnd ∧
        (∀ c ∈ g2, c ≠ '>') ∧ (∀ c ∈ gLab, c ≠ '"') := by
  intro cs2 gLab content rest h
  rw [matchOptgroupTail] at h
  cases hd : cs2.dropWhile notQuote with
  | nil => rw [hd] at h; cases h
  | cons q cs4 =>
    rw [hd] at h
    dsimp only at h
    cases hd2 : cs4.dropWhile notGt with
    | nil => rw [hd2] at h; cases h
    | cons g cs6 =>
      rw [hd2] at h
      dsimp only at h
      rw [Option.map_eq_some'] at h
      obtain ⟨t, htf, heq⟩ := h
      obtain ⟨h1, h2, h3⟩ := triple_inj heq
      subst h1 h2 h3
      obtain ⟨hfc, hciE⟩ := findCI_sound cs6 closeOptgroupLit t.1 t.2.1 t.2.2 (by rw [htf])
      have hq := eq_quote_of_notQuote_false (dropWhile_head_not notQuote cs2 q cs4 hd)
      have hg := eq_gt_of_notGt_false (dropWhile_head_not notGt cs4 g cs6 hd2)
      subst hq hg
      have e1 : cs2 = cs2.takeWhile notQuote ++ '"' :: cs4 := by
        conv_lhs => rw [← List.takeWhile_append_dropWhile (p := notQuote) (l := cs2)]
        rw [hd]
      have e2 : cs4 = cs4.takeWhile notGt ++ '>' :: cs6 := by
        conv_lhs => rw [← List.takeWhile_append_dropWhile (p := notGt) (l := cs4)]
        rw [hd2]
      refine ⟨cs4.takeWhile notGt, t.2.1, ?_, hciE,
        fun c hc => ne_gt_of_mem_takeWhile hc,
        fun c hc => ne_quote_of_mem_takeWhile hc⟩
      set A := cs2.takeWhile notQuote with hA
      set B := cs4.takeWhile notGt with hB
      rw [e1, e2, hfc]

theorem matchOptgroupAt_sound :
    ∀ (cs gLab content rest : List Char),
      matchOptgroupAt cs = some (gLab, content, rest) →
      OptgroupAt cs gLab content rest := by
  intro cs gLab content rest h
  rw [matchOptgroupAt] at h
  cases hm : matchLitCI optgroupLit cs with
  | none => rw [hm] at h; cases h
  | some pr =>
    rw [hm] at h
    obtain ⟨t, htmem, hft⟩ := firstSome_eq_some _ _ _ h
    obtain ⟨hsplit, hok, hciL⟩ :=
      splitsAsc_mem pr.2 labelLit notGt t (List.mem_reverse.mp htmem)
    obtain ⟨g2, mEnd, htail, hciE, hg2, hlab⟩ :=
      matchOptgroupTail_sound t.2.2 gLab content rest hft
    obtain ⟨hcs, hciO⟩ := matchLitCI_sound optgroupLit cs pr.1 pr.2 (by rw [hm])
    refine ⟨pr.1, t.1, t.2.1, g2, mEnd, ?_, hciO, hciL, hciE,
      fun c hc => by simpa [notGt] using hok c hc, hg2, hlab⟩
    rw [hcs, hsplit, htail]
    simp

theorem optgroupShape_suffix {cs2 cs : List Char} {gLab content : List Char}
    (hsuf : cs2 <:+ cs) (h : OptgroupShape cs2 gLab content) :
    OptgroupShape cs gLab content := by
  obtain ⟨xs, rfl⟩ := hsuf
  obtain ⟨pre, suffix, rest, rfl, hat⟩ := h
  exact ⟨xs ++ pre, suffix, rest, by simp, hat⟩

theorem scanOptgroupsF_sound :
    ∀ (fuel : Nat) (cs : List Char) (t : List Char × List Char),
      t ∈ scanOptgroupsF fuel cs → OptgroupShape cs t.1 t.2 := by
  intro fuel
  induction fuel with
  | zero => intro cs t ht; cases ht
  | succ n ih =>
    intro cs t ht
    cases cs with
    | nil => cases ht
    | cons c rest0 =>
      rw [scanOptgroupsF] at ht
      cases hm : matchOptgroupAt (c :: rest0) with
      | none =>
        rw [hm] at ht
        exact optgroupShape_suffix (List.suffix_cons c rest0) (ih rest0 t ht)
      | some mt =>
        rw [hm] at ht
        rcases List.mem_cons.mp ht with heq | h2
        · have hat := matchOptgroupAt_sound (c :: rest0) mt.1 mt.2.1 mt.2.2 (by rw [hm])
          rw [heq]
          exact ⟨[], c :: rest0, mt.2.2, rfl, hat⟩
        · have hshape := ih mt.2.2 t h2
          obtain ⟨m0, g1, mL, g2, mEnd, hdec, -⟩ :=
            matchOptgroupAt_sound (c :: rest0) mt.1 mt.2.1 mt.2.2 (by rw [hm])
          refine optgroupShape_suffix ⟨m0 ++ g1 ++ mL ++ mt.1 ++
            '"' :: (g2 ++ '>' :: (mt.2.1 ++ mEnd)), ?_⟩ hshape
          rw [hdec]
          simp

/-- C5 (amended): every entry listMacros returns is sound — it has a
non-empty entity-decoded name and a non-empty id, its name is the decoding
of the trimmed label capture of an option tag of the parsed region that
carries the label attribute followed by the value attribute equal to the id,
and its group is the decoding of the trimmed label of the enclosing optgroup
(whose lazily delimited content contains that option tag); entries lacking
either attribute are dropped, never emitted with empty fields, and — as the
counterexample forces — an option carrying both attributes in the reverse
order (value before label) is also dropped; entity decoding covers numeric
decimal, numeric hexadecimal, and the five named entities, so &amp; decodes
to &. -/
theorem listMacros_entries_sound :
    (∀ (html : String) (e : MacroEntry), e ∈ listMacrosEntries html →
      e.name ≠ "" ∧ e.uid ≠ "" ∧
      ∃ gLab content lab,
        OptgroupShape (sectionToParse html.toList) gLab content ∧
        OptionTagShape content lab e.uid.toList ∧
        e.name = decodeHtmlEntities (jsTrim (String.mk lab)) ∧
        e.group = decodeHtmlEntities (jsTrim (String.mk gLab))) ∧
    decodeHtmlEntities "&amp;" = "&" := by
  constructor
  · intro html e he
    simp only [listMacrosEntries] at he
    obtain ⟨l, hl, hel⟩ := mem_concatAll _ _ he
    rw [List.mem_map] at hl
    obtain ⟨g, hg, rfl⟩ := hl
    rw [List.mem_filterMap] at hel
    obtain ⟨o, ho, hoe⟩ := hel
    by_cases h1 : decodeHtmlEntities (jsTrim (String.mk o.1)) = ""
    · rw [if_pos h1] at hoe; cases hoe
    · rw [if_neg h1] at hoe
      by_cases h2 : String.mk o.2 = ""
      · rw [if_pos h2] at hoe; cases hoe
      · rw [if_neg h2] at hoe
        obtain rfl := Option.some.inj hoe
        rw [scanOptgroups] at hg
        rw [scanOptions] at ho
        exact ⟨h1, h2, g.1, g.2, o.1,
          scanOptgroupsF_sound _ _ g hg, scanOptionsF_sound _ _ o ho, rfl, rfl⟩
  · decide

/-- A one-group, one-option catalog document whose label carries an &amp;
entity. -/
def sampleCatalog : String :=
  "<optgroup label=\"Group A\"><option label=\"A&amp;B\" value=\"U1\">A&amp;B</option></optgroup>"

/-- Witness for C5 (amended) at a concrete catalog document: the returned
entry ("A&B", "U1", "Group A") is traced to its option tag and group. -/
theorem listMacros_entries_sound_witness :
    (MacroEntry.mk "A&B" "U1" "Group A").name ≠ "" ∧
    (MacroEntry.mk "A&B" "U1" "Group A").uid ≠ "" ∧
    ∃ gLab content lab,
      OptgroupShape (sectionToParse sampleCatalog.toList) gLab content ∧
      OptionTagShape content lab (MacroEntry.mk "A&B" "U1" "Group A").uid.toList ∧
      (MacroEntry.mk "A&B" "U1" "Group A").name = decodeHtmlEntities (jsTrim (String.mk lab)) ∧
      (MacroEntry.mk "A&B" "U1" "Group A").group = decodeHtmlEntities (jsTrim (String.mk gLab)) :=
  listMacros_entries_sound.1 sampleCatalog (MacroEntry.mk "A&B" "U1" "Group A") (by decide)


end KMMCP
